import Mathlib

/-!
# Weight store of `src/build.cpp`

A shallow embedding of `saveWeights`, `loadWeights` and of the constants `main`
passes to them and to the builder configuration.

Modelling conventions.

* A byte is a `Fin 256`; a `float` is represented by its 32-bit IEEE-754 pattern
  (`Fin 2^32`), because the program only ever copies floats as raw memory.
* The object representation of a 4-byte scalar depends on the byte order of the
  machine; every definition takes the byte order as a parameter and every
  theorem holds for both orders.
* `int` is 32 bits wide (two's complement), `sizeof(int) = sizeof(float) = 4`,
  `std::size_t` and `std::streamsize` are 64 bits wide.
* The file system is explicit state.  Whether a stream can be opened on a name
  is a property of the environment, recorded in the state.
* `assert` is compiled in (no `NDEBUG`): a failed assertion aborts the process.
* Memory allocation for `std::vector<float> data(size)` with a non-negative
  `size` is taken to succeed.
* Stream writes to an open file are taken to succeed (no I/O error, no full
  disk).
-/

namespace WeightStore

/-- One byte of a file or of an object representation. -/
abbrev Byte := Fin 256

/-- The bit pattern of a 32-bit IEEE-754 `float`. -/
abbrev Float32 := Fin 4294967296

/-- Byte order of the machine running the program. -/
inductive ByteOrder where
  | little
  | big
  deriving DecidableEq, Repr

/-- How a call of the program ends. -/
inductive Outcome (α : Type) where
  /-- The function returned normally. -/
  | returned (a : α)
  /-- An `assert` failed: the process is aborted. -/
  | assertFailed
  /-- The constructor of `std::vector` threw, which nothing catches. -/
  | lengthError
  /-- The behaviour is not defined by the language (indeterminate value read,
  out-of-bounds access, negative stream count). -/
  | undefined
  deriving DecidableEq, Repr

/-- The least significant byte first representation of a 32-bit word. -/
def bytesLE (x : Nat) : List Byte :=
  [⟨x % 256, Nat.mod_lt _ (by decide)⟩,
   ⟨x / 256 % 256, Nat.mod_lt _ (by decide)⟩,
   ⟨x / 65536 % 256, Nat.mod_lt _ (by decide)⟩,
   ⟨x / 16777216 % 256, Nat.mod_lt _ (by decide)⟩]

/-- The 4 bytes that `(char *)(&x)` points to, for a 32-bit scalar holding the
word `x`. -/
def objRep (ord : ByteOrder) (x : Nat) : List Byte :=
  match ord with
  | .little => bytesLE x
  | .big => (bytesLE x).reverse

/-- The 32-bit word whose object representation is the first 4 bytes of `bs`
(a missing byte counts as zero). -/
def objVal (ord : ByteOrder) (bs : List Byte) : Nat :=
  let le : List Byte :=
    match ord with
    | .little => bs.take 4
    | .big => (bs.take 4).reverse
  (le.getD 0 0).val + 256 * (le.getD 1 0).val + 65536 * (le.getD 2 0).val
    + 16777216 * (le.getD 3 0).val

/-- Object representation of an `int` (two's complement, 32 bits). -/
def intRep (ord : ByteOrder) (n : Int) : List Byte :=
  objRep ord (n % 4294967296).toNat

/-- The `int` stored in 4 bytes of memory. -/
def intVal (ord : ByteOrder) (bs : List Byte) : Int :=
  let u := objVal ord bs % 4294967296
  if u < 2147483648 then (u : Int) else (u : Int) - 4294967296

/-- Object representation of a `float`. -/
def floatRep (ord : ByteOrder) (x : Float32) : List Byte :=
  objRep ord x.val

/-- The `float` stored in 4 bytes of memory. -/
def floatVal (ord : ByteOrder) (bs : List Byte) : Float32 :=
  ⟨objVal ord bs % 4294967296, Nat.mod_lt _ (by decide)⟩

/-- The memory occupied by an array of `float`. -/
def arrayRep (ord : ByteOrder) : List Float32 → List Byte
  | [] => []
  | x :: xs => floatRep ord x ++ arrayRep ord xs

/-- The `n` floats stored in a buffer of `4 * n` bytes. -/
def arrayVal (ord : ByteOrder) : Nat → List Byte → List Float32
  | 0, _ => []
  | n + 1, bs => floatVal ord bs :: arrayVal ord n (bs.drop 4)

/-- The file system: the bytes of every existing file, and for every name
whether a stream can be opened on it for output or input. -/
structure FileSystem where
  /-- The bytes of the file of that name, `none` when there is no such file. -/
  contents : String → Option (List Byte)
  /-- Whether the environment lets an output stream open the name. -/
  outOk : String → Bool
  /-- Whether the environment lets an input stream open the name. -/
  inOk : String → Bool

/-- Replace the bytes of one file. -/
def FileSystem.store (fs : FileSystem) (name : String) (bs : List Byte) : FileSystem :=
  { fs with contents := fun p => if p = name then some bs else fs.contents p }

/-- Constructor `std::ofstream(filename, std::ios::binary)`: the mode is
`out | binary`, which creates the file or truncates it to length zero.  The
result is `none` when the stream is not open. -/
def ofstream_open (fs : FileSystem) (filename : String) : Option FileSystem :=
  if fs.outOk filename then some (fs.store filename []) else none

/-- Member `ostream::write(s, count)` on the stream opened on `filename`: the
first `count` bytes of the memory `s` are appended to the file. -/
def ofstream_write (fs : FileSystem) (filename : String) (s : List Byte) (count : Nat) :
    FileSystem :=
  match fs.contents filename with
  | some old => fs.store filename (old ++ s.take count)
  | none => fs

/-- Constructor `std::ifstream(filename, std::ios::binary)`: the unread bytes
of the stream, `none` when the stream is not open. -/
def ifstream_open (fs : FileSystem) (filename : String) : Option (List Byte) :=
  if fs.inOk filename then fs.contents filename else none

/-- Member `istream::read(s, count)`: extracts up to `count` bytes and stores
them at the start of the buffer `s`, whose other bytes keep their value.
Returns the buffer and the unread rest of the stream. -/
def ifstream_read (strm : List Byte) (s : List Byte) (count : Nat) :
    List Byte × List Byte :=
  let got := strm.take count
  (got ++ s.drop got.length, strm.drop count)

/-- Function `saveWeights(filename, data, size)` of the source, where `data`
is the array the pointer refers to.  The second write copies
`size * sizeof(float)` bytes from that array: a negative `size`, or one larger
than the array, is outside what the language defines. -/
def saveWeights (ord : ByteOrder) (fs : FileSystem) (filename : String)
    (data : List Float32) (size : Int) : Outcome Unit × FileSystem :=
  -- std::ofstream outfile(filename, std::ios::binary);
  match ofstream_open fs filename with
  -- assert(outfile.is_open() && "save weights failed");
  | none => (.assertFailed, fs)
  | some fs0 =>
    -- outfile.write((char *)(&size), sizeof(int));
    let fs1 := ofstream_write fs0 filename (intRep ord size) 4
    -- outfile.write((char *)(data), size * sizeof(float));
    if size < 0 ∨ (data.length : Int) < size then (.undefined, fs1)
    else
      let fs2 := ofstream_write fs1 filename (arrayRep ord data) (size.toNat * 4)
      -- outfile.close();
      (.returned (), fs2)

/-- Function `loadWeights(filename)` of the source. -/
def loadWeights (ord : ByteOrder) (fs : FileSystem) (filename : String) :
    Outcome (List Float32) :=
  -- std::ifstream input_file(filename, std::ios::binary);
  match ifstream_open fs filename with
  -- assert(input_file.is_open() && "load weight failed");
  | none => .assertFailed
  | some strm =>
    -- int size; input_file.read((char *)(&size), sizeof(int));
    -- (with fewer than 4 bytes the read fails and `size` stays indeterminate)
    if strm.length < 4 then .undefined
    else
      let (sizeBytes, strm1) := ifstream_read strm [] 4
      let size := intVal ord sizeBytes
      -- std::vector<float> data(size);
      -- (a negative `size` converts to a `size_t` above `max_size()`)
      if size < 0 then .lengthError
      else
        let data := List.replicate (size.toNat * 4) (0 : Byte)
        -- input_file.read((char *)(data.data()), size * sizeof(float));
        let (data1, _) := ifstream_read strm1 data (size.toNat * 4)
        -- input_file.close(); return data;
        .returned (arrayVal ord size.toNat data1)

/-- The `int` that a file declares as its element count: its first 4 bytes. -/
def declaredCount (ord : ByteOrder) (bs : List Byte) : Int :=
  intVal ord (bs.take 4)

/-- Array `fc1_weight_data` of `main`: the `float` nearest to each of
0.1, 0.2, 0.3, 0.4, 0.5, 0.6. -/
def fc1_weight_data : List Float32 :=
  [0x3DCCCCCD, 0x3E4CCCCD, 0x3E99999A, 0x3ECCCCCD, 0x3F000000, 0x3F19999A]

/-- Array `fc1_bias_data` of `main`: the `float` nearest to each of 0.1, 0.5. -/
def fc1_bias_data : List Float32 :=
  [0x3DCCCCCD, 0x3F000000]

/-- The argument `1 << 20` that `main` passes to `config->setMaxWorkspaceSize`. -/
def main_maxWorkspaceSize : Nat :=
  1 <<< 20

/-- The size that the comment on that line of `main` documents: 256 MB. -/
def main_maxWorkspaceSize_documented : Nat :=
  256 * 2 ^ 20

/-- A file system with no file, on which every name can be opened. -/
def emptyFS : FileSystem :=
  { contents := fun _ => none, outOk := fun _ => true, inOk := fun _ => true }

/-- The weight-store part of `main` (lines 91 to 96): two files are saved,
then loaded again. -/
def main_weights (ord : ByteOrder) (fs : FileSystem) :
    Outcome (List Float32) × Outcome (List Float32) :=
  let fs1 := (saveWeights ord fs "model/fc1.wts" fc1_weight_data 6).2
  let fs2 := (saveWeights ord fs1 "model/fc1.bias" fc1_bias_data 2).2
  (loadWeights ord fs2 "model/fc1.wts", loadWeights ord fs2 "model/fc1.bias")

/-- A file system with no file, on which no name can be opened. -/
def lockedFS : FileSystem :=
  { contents := fun _ => none, outOk := fun _ => false, inOk := fun _ => false }

/-- A file system holding one truncated weight file: the count 2 followed by
the 4 bytes of the single float 1.0 (pattern `0x3F800000`, little endian). -/
def truncatedFS : FileSystem :=
  emptyFS.store "t.bin" [2, 0, 0, 0, 0, 0, 0x80, 0x3F]

/-- A file system holding one over-long weight file: the count 1, the 4 bytes
of the float 1.0, then 3 more bytes. -/
def overlongFS : FileSystem :=
  emptyFS.store "o.bin" [1, 0, 0, 0, 0, 0, 0x80, 0x3F, 7, 8, 9]

/-- The same file cut after the declared data. -/
def exactFS : FileSystem :=
  emptyFS.store "o.bin" [1, 0, 0, 0, 0, 0, 0x80, 0x3F]

/-! ## Object representations -/

theorem bytesLE_length (x : Nat) : (bytesLE x).length = 4 := rfl

theorem objRep_length (ord : ByteOrder) (x : Nat) : (objRep ord x).length = 4 := by
  cases ord <;> rfl

theorem intRep_length (ord : ByteOrder) (n : Int) : (intRep ord n).length = 4 :=
  objRep_length ord _

theorem floatRep_length (ord : ByteOrder) (x : Float32) : (floatRep ord x).length = 4 :=
  objRep_length ord _

theorem arrayRep_length (ord : ByteOrder) (v : List Float32) :
    (arrayRep ord v).length = 4 * v.length := by
  induction v with
  | nil => rfl
  | cons x xs ih => simp [arrayRep, floatRep_length, ih]; omega

/-- Decoding the representation of a word gives the word back, whatever
follows it in memory. -/
theorem objVal_objRep (ord : ByteOrder) (x : Nat) (rest : List Byte) :
    objVal ord (objRep ord x ++ rest) = x % 4294967296 := by
  cases ord <;> simp [objVal, objRep, bytesLE] <;> omega

theorem floatVal_floatRep (ord : ByteOrder) (x : Float32) (rest : List Byte) :
    floatVal ord (floatRep ord x ++ rest) = x := by
  apply Fin.ext
  simp only [floatVal, floatRep, objVal_objRep]
  have := x.isLt
  omega

theorem intVal_intRep (ord : ByteOrder) (n : Int) (rest : List Byte)
    (hlo : -2147483648 ≤ n) (hhi : n ≤ 2147483647) :
    intVal ord (intRep ord n ++ rest) = n := by
  simp only [intVal, intRep, objVal_objRep]
  have h0 : 0 ≤ n % 4294967296 := Int.emod_nonneg _ (by decide)
  have h1 : n % 4294967296 < 4294967296 := Int.emod_lt_of_pos _ (by decide)
  have h2 : (((n % 4294967296).toNat % 4294967296 : Nat) : Int) = n % 4294967296 := by
    omega
  split <;> omega

theorem arrayVal_length (ord : ByteOrder) (n : Nat) (bs : List Byte) :
    (arrayVal ord n bs).length = n := by
  induction n generalizing bs with
  | zero => rfl
  | succ k ih => simp [arrayVal, ih]

/-- Reading back the memory of an array gives the array, whatever follows it. -/
theorem arrayVal_arrayRep (ord : ByteOrder) (v : List Float32) (rest : List Byte) :
    arrayVal ord v.length (arrayRep ord v ++ rest) = v := by
  induction v with
  | nil => rfl
  | cons x xs ih =>
    simp only [List.length_cons, arrayVal, arrayRep, List.append_assoc, floatVal_floatRep]
    rw [List.drop_left' (floatRep_length ord x), ih]

/-! ## The two operations in closed form -/

theorem store_store (fs : FileSystem) (f : String) (a b : List Byte) :
    (fs.store f a).store f b = fs.store f b := by
  unfold FileSystem.store
  congr 1
  funext p
  by_cases hp : p = f <;> simp [hp]

theorem store_contents_self (fs : FileSystem) (f : String) (a : List Byte) :
    (fs.store f a).contents f = some a := by
  simp [FileSystem.store]

/-- With an output stream that opens and `size` the length of the array,
`saveWeights` returns and leaves in the file the bytes of `size` followed by
the bytes of the array. -/
theorem saveWeights_eq (ord : ByteOrder) (fs : FileSystem) (f : String) (v : List Float32)
    (hout : fs.outOk f = true) :
    saveWeights ord fs f v v.length
      = (.returned (), fs.store f (intRep ord v.length ++ arrayRep ord v)) := by
  have h1 : ¬ ((v.length : Int) < 0 ∨ (v.length : Int) < (v.length : Int)) := by omega
  have h2 : (arrayRep ord v).take (v.length * 4) = arrayRep ord v :=
    List.take_of_length_le (by rw [arrayRep_length]; omega)
  have h3 : (intRep ord v.length).take 4 = intRep ord v.length :=
    List.take_of_length_le (by rw [intRep_length])
  simp only [saveWeights, ofstream_open, hout, if_true, ofstream_write, store_contents_self,
    store_store, h1, if_false, Int.toNat_ofNat, h2, h3, List.nil_append]

/-- With an input stream that opens on a file of at least 4 bytes declaring a
non-negative count, `loadWeights` returns the floats of the zero-initialised
buffer over which the available payload has been copied. -/
theorem loadWeights_eq (ord : ByteOrder) (fs : FileSystem) (f : String) (bs : List Byte)
    (hin : fs.inOk f = true) (hc : fs.contents f = some bs) (h4 : 4 ≤ bs.length)
    (hn : 0 ≤ declaredCount ord bs) :
    loadWeights ord fs f
      = .returned (arrayVal ord (declaredCount ord bs).toNat
          ((bs.drop 4).take ((declaredCount ord bs).toNat * 4)
            ++ List.replicate ((declaredCount ord bs).toNat * 4 - (bs.drop 4).length) 0)) := by
  have h5 : ¬ bs.length < 4 := by omega
  have h6 : ¬ declaredCount ord bs < 0 := by omega
  simp only [loadWeights, ifstream_open, hin, if_true, hc, h5, if_false, ifstream_read,
    List.drop_nil, List.append_nil]
  simp only [declaredCount] at h6 ⊢
  simp only [h6, if_false, List.drop_replicate, List.length_take, List.length_drop]
  congr 3
  congr 1
  omega

theorem getD_zero_of_all_zero (l : List Byte) (j : Nat) (h : ∀ b ∈ l, b = 0) :
    l.getD j 0 = 0 := by
  induction l generalizing j with
  | nil => rfl
  | cons a t ih =>
    cases j with
    | zero => simpa using h a (by simp)
    | succ k => simpa using ih k (fun b hb => h b (by simp [hb]))

/-- Four zero bytes, or fewer, hold the all-zero pattern. -/
theorem floatVal_replicate_zero (ord : ByteOrder) (m : Nat) :
    floatVal ord (List.replicate m (0 : Byte)) = 0 := by
  have hz : ∀ j, ((List.replicate m (0 : Byte)).take 4).getD j 0 = 0 := fun j =>
    getD_zero_of_all_zero _ j (fun b hb => List.eq_of_mem_replicate (List.mem_of_mem_take hb))
  have hr : ∀ j, ((List.replicate m (0 : Byte)).take 4).reverse.getD j 0 = 0 := fun j =>
    getD_zero_of_all_zero _ j (fun b hb =>
      List.eq_of_mem_replicate (List.mem_of_mem_take (List.mem_reverse.mp hb)))
  apply Fin.ext
  cases ord <;> simp [floatVal, objVal, hz, hr]

/-- The `i`-th float of a buffer is what its bytes from offset `4 * i` hold. -/
theorem arrayVal_getElem? (ord : ByteOrder) (n : Nat) (bs : List Byte) (i : Nat) (hi : i < n) :
    (arrayVal ord n bs)[i]? = some (floatVal ord (bs.drop (4 * i))) := by
  induction n generalizing bs i with
  | zero => omega
  | succ k ih =>
    cases i with
    | zero => simp [arrayVal]
    | succ j =>
      simp only [arrayVal, List.getElem?_cons_succ]
      rw [ih (bs.drop 4) j (by omega), List.drop_drop]
      congr 3
      omega

/-- The 4 bytes at offset `4 * i` of the memory of an array are those of its
`i`-th element. -/
theorem arrayRep_slice (ord : ByteOrder) (v : List Float32) (i : Nat) (hi : i < v.length) :
    ((arrayRep ord v).drop (4 * i)).take 4 = floatRep ord (v.get ⟨i, hi⟩) := by
  induction v generalizing i with
  | nil => simp at hi
  | cons x xs ih =>
    cases i with
    | zero =>
      simp only [arrayRep, Nat.mul_zero, List.drop_zero]
      rw [List.take_left' (floatRep_length ord x)]
      rfl
    | succ k =>
      have hk : k < xs.length := by simpa using hi
      have h4 : 4 * (k + 1) = (floatRep ord x).length + 4 * k := by
        rw [floatRep_length]; omega
      simp only [arrayRep, List.get_cons_succ]
      rw [h4, List.drop_append]
      exact ih k hk

theorem declaredCount_saved (ord : ByteOrder) (v : List Float32) (hn : v.length ≤ 2147483647) :
    declaredCount ord (intRep ord v.length ++ arrayRep ord v) = v.length := by
  unfold declaredCount
  rw [List.take_left' (intRep_length ord _)]
  have := intVal_intRep ord (v.length : Int) [] (by omega) (by omega)
  simpa using this

/-- Loading a file that holds the count and the data of `v` returns `v`. -/
theorem loadWeights_saved (ord : ByteOrder) (fs : FileSystem) (f : String) (v : List Float32)
    (hin : fs.inOk f = true) (hn : v.length ≤ 2147483647)
    (hc : fs.contents f = some (intRep ord v.length ++ arrayRep ord v)) :
    loadWeights ord fs f = .returned v := by
  have hd := declaredCount_saved ord v hn
  have hload := loadWeights_eq ord fs f (intRep ord v.length ++ arrayRep ord v) hin hc
    (by simp [intRep_length]) (by rw [hd]; omega)
  rw [hload, hd, Int.toNat_ofNat, List.drop_left' (intRep_length ord _)]
  rw [List.take_of_length_le (by rw [arrayRep_length]; omega)]
  exact congrArg Outcome.returned (arrayVal_arrayRep ord v _)

/-- The weight-store part of `main` on any file system where both names can
be opened: both loads return what was saved. -/
theorem main_weights_returned (ord : ByteOrder) (fs : FileSystem)
    (ho1 : fs.outOk "model/fc1.wts" = true) (ho2 : fs.outOk "model/fc1.bias" = true)
    (hi1 : fs.inOk "model/fc1.wts" = true) (hi2 : fs.inOk "model/fc1.bias" = true) :
    main_weights ord fs = (.returned fc1_weight_data, .returned fc1_bias_data) := by
  have e1 := saveWeights_eq ord fs "model/fc1.wts" fc1_weight_data ho1
  have e2 := saveWeights_eq ord
    (fs.store "model/fc1.wts" (intRep ord fc1_weight_data.length ++ arrayRep ord fc1_weight_data))
    "model/fc1.bias" fc1_bias_data ho2
  have l6 : ((fc1_weight_data.length : Nat) : Int) = 6 := rfl
  have l2 : ((fc1_bias_data.length : Nat) : Int) = 2 := rfl
  rw [l6] at e1 e2
  rw [l2] at e2
  unfold main_weights
  simp only [e1, e2]
  congr 1
  · exact loadWeights_saved ord _ _ fc1_weight_data hi1 (by decide)
      (by simp [FileSystem.store, l6])
  · exact loadWeights_saved ord _ _ fc1_bias_data hi2 (by decide)
      (by simp [FileSystem.store, l2])

/-- The files `main` leaves are 28 and 12 bytes long, and saving the empty
sequence leaves a 4-byte file holding a zero count. -/
theorem main_file_sizes (ord : ByteOrder) :
    ((saveWeights ord emptyFS "model/fc1.wts" fc1_weight_data 6).2.contents
        "model/fc1.wts").map List.length = some 28 ∧
      ((saveWeights ord emptyFS "model/fc1.bias" fc1_bias_data 2).2.contents
        "model/fc1.bias").map List.length = some 12 ∧
      (saveWeights ord emptyFS "empty.bin" [] 0).2.contents "empty.bin"
        = some [0, 0, 0, 0] ∧
      loadWeights ord (saveWeights ord emptyFS "empty.bin" [] 0).2 "empty.bin"
        = .returned [] := by
  cases ord <;> decide

/-! ## The claims -/

/-- C1. Round trip: when the destination can be opened and the sequence `v` has
at most `2^31 - 1` elements (possibly none), `saveWeights` returns and
`loadWeights` run on the resulting file system returns exactly `v`: the same
length and the same 32-bit pattern at every index. -/
theorem round_trip (ord : ByteOrder) (fs : FileSystem) (f : String) (v : List Float32)
    (hout : fs.outOk f = true) (hin : fs.inOk f = true) (hn : v.length ≤ 2147483647) :
    (saveWeights ord fs f v v.length).1 = .returned () ∧
      loadWeights ord (saveWeights ord fs f v v.length).2 f = .returned v := by
  rw [saveWeights_eq ord fs f v hout]
  exact ⟨rfl, loadWeights_saved ord _ f v hin hn (store_contents_self _ _ _)⟩

/-- Instance of C1 on the six weights of `main`. -/
theorem round_trip_witness :
    (saveWeights .little emptyFS "model/fc1.wts" fc1_weight_data fc1_weight_data.length).1
        = .returned () ∧
      loadWeights .little
        (saveWeights .little emptyFS "model/fc1.wts" fc1_weight_data fc1_weight_data.length).2
        "model/fc1.wts" = .returned fc1_weight_data :=
  round_trip .little emptyFS "model/fc1.wts" fc1_weight_data rfl rfl (by decide)

/-- C2. Size law: when the destination can be opened, after
`saveWeights(f, v, n)` with `n` the length of `v` (at most `2^31 - 1`) the file
`f` exists and is exactly `4 + 4 * n` bytes long. -/
theorem size_law (ord : ByteOrder) (fs : FileSystem) (f : String) (v : List Float32)
    (hout : fs.outOk f = true) (_hn : v.length ≤ 2147483647) :
    (saveWeights ord fs f v v.length).1 = .returned () ∧
      ∃ bs, (saveWeights ord fs f v v.length).2.contents f = some bs ∧
        bs.length = 4 + 4 * v.length := by
  rw [saveWeights_eq ord fs f v hout]
  exact ⟨rfl, _, store_contents_self _ _ _, by simp [intRep_length, arrayRep_length]⟩

/-- Instance of C2 on the two biases of `main`: the file is 12 bytes long. -/
theorem size_law_witness :
    (saveWeights .big emptyFS "model/fc1.bias" fc1_bias_data fc1_bias_data.length).1
        = .returned () ∧
      ∃ bs, (saveWeights .big emptyFS "model/fc1.bias" fc1_bias_data
          fc1_bias_data.length).2.contents "model/fc1.bias" = some bs ∧
        bs.length = 4 + 4 * fc1_bias_data.length :=
  size_law .big emptyFS "model/fc1.bias" fc1_bias_data rfl (by decide)

/-- C3. Byte layout: when the destination can be opened, the file that
`saveWeights(f, v, n)` leaves (`n` the length of `v`, at most `2^31 - 1`) is
`4 + 4 * n` bytes long, its first 4 bytes are the object representation of the
`int` `n`, and for every `i < n` the 4 bytes at offset `4 + 4 * i` are the
object representation of `v[i]`; so there is nothing before, between or after
them. -/
theorem byte_layout (ord : ByteOrder) (fs : FileSystem) (f : String) (v : List Float32)
    (hout : fs.outOk f = true) (hn : v.length ≤ 2147483647) :
    ∃ bs, (saveWeights ord fs f v v.length).2.contents f = some bs ∧
      bs.length = 4 + 4 * v.length ∧
      bs.take 4 = intRep ord v.length ∧
      intVal ord (bs.take 4) = v.length ∧
      ∀ (i : Nat) (hi : i < v.length),
        (bs.drop (4 + 4 * i)).take 4 = floatRep ord (v.get ⟨i, hi⟩) := by
  rw [saveWeights_eq ord fs f v hout]
  refine ⟨_, store_contents_self _ _ _, by simp [intRep_length, arrayRep_length],
    List.take_left' (intRep_length ord _), declaredCount_saved ord v hn, ?_⟩
  intro i hi
  have h4 : 4 + 4 * i = (intRep ord (v.length : Int)).length + 4 * i := by
    rw [intRep_length]
  rw [h4, List.drop_append]
  exact arrayRep_slice ord v i hi

/-- Instance of C3 on the six weights of `main`. -/
theorem byte_layout_witness :
    ∃ bs, (saveWeights .little emptyFS "model/fc1.wts" fc1_weight_data
        fc1_weight_data.length).2.contents "model/fc1.wts" = some bs ∧
      bs.length = 4 + 4 * fc1_weight_data.length ∧
      bs.take 4 = intRep .little fc1_weight_data.length ∧
      intVal .little (bs.take 4) = fc1_weight_data.length ∧
      ∀ (i : Nat) (hi : i < fc1_weight_data.length),
        (bs.drop (4 + 4 * i)).take 4 = floatRep .little (fc1_weight_data.get ⟨i, hi⟩) :=
  byte_layout .little emptyFS "model/fc1.wts" fc1_weight_data rfl (by decide)

/-- C4, as the code behaves. Truncation is not detected: when the stream opens
on a file of at least 4 bytes whose declared count `n` needs more than the
bytes present (length below `4 + 4 * n`), `loadWeights` reports no error and
returns a sequence. -/
theorem truncation_unreported (ord : ByteOrder) (fs : FileSystem) (f : String)
    (bs : List Byte) (hin : fs.inOk f = true) (hc : fs.contents f = some bs)
    (h4 : 4 ≤ bs.length) (hshort : (bs.length : Int) < 4 + 4 * declaredCount ord bs) :
    ∃ v, loadWeights ord fs f = .returned v :=
  ⟨_, loadWeights_eq ord fs f bs hin hc h4 (by omega)⟩

/-- Instance of C4 as amended, on the truncated file. -/
theorem truncation_unreported_witness :
    ∃ v, loadWeights .little truncatedFS "t.bin" = .returned v :=
  truncation_unreported .little truncatedFS "t.bin" [2, 0, 0, 0, 0, 0, 0x80, 0x3F]
    rfl rfl (by decide) (by decide)

/-- C4 fails as stated: the file `t.bin` opens, declares the count 2 and is
8 bytes long, fewer than `4 + 4 * 2`, yet `loadWeights` returns a sequence
(the float present, then a zero). -/
theorem truncation_detection_fails :
    truncatedFS.inOk "t.bin" = true ∧
      truncatedFS.contents "t.bin" = some [2, 0, 0, 0, 0, 0, 0x80, 0x3F] ∧
      declaredCount .little [2, 0, 0, 0, 0, 0, 0x80, 0x3F] = 2 ∧
      ([2, 0, 0, 0, 0, 0, 0x80, 0x3F] : List Byte).length < 4 + 4 * 2 ∧
      loadWeights .little truncatedFS "t.bin" = .returned [0x3F800000, 0] := by
  decide

/-- C5. Overwrite: when the destination can be opened, saving `v1` and then
`v2` to the same name returns both times and leaves in the file exactly the
bytes that saving `v2` alone leaves, which are the count and data of `v2`;
nothing of `v1` remains. -/
theorem overwrite (ord : ByteOrder) (fs : FileSystem) (f : String) (v1 v2 : List Float32)
    (hout : fs.outOk f = true) :
    (saveWeights ord fs f v1 v1.length).1 = .returned () ∧
      (saveWeights ord (saveWeights ord fs f v1 v1.length).2 f v2 v2.length).1
        = .returned () ∧
      (saveWeights ord (saveWeights ord fs f v1 v1.length).2 f v2 v2.length).2.contents f
        = (saveWeights ord fs f v2 v2.length).2.contents f ∧
      (saveWeights ord fs f v2 v2.length).2.contents f
        = some (intRep ord v2.length ++ arrayRep ord v2) := by
  rw [saveWeights_eq ord fs f v1 hout, saveWeights_eq ord fs f v2 hout]
  have hout1 : (fs.store f (intRep ord v1.length ++ arrayRep ord v1)).outOk f = true := hout
  rw [saveWeights_eq ord _ f v2 hout1, store_store]
  exact ⟨rfl, rfl, rfl, store_contents_self _ _ _⟩

/-- Instance of C5: the six weights are overwritten by the two biases. -/
theorem overwrite_witness :
    (saveWeights .little emptyFS "w.bin" fc1_weight_data fc1_weight_data.length).1
        = .returned () ∧
      (saveWeights .little
        (saveWeights .little emptyFS "w.bin" fc1_weight_data fc1_weight_data.length).2
        "w.bin" fc1_bias_data fc1_bias_data.length).1 = .returned () ∧
      (saveWeights .little
        (saveWeights .little emptyFS "w.bin" fc1_weight_data fc1_weight_data.length).2
        "w.bin" fc1_bias_data fc1_bias_data.length).2.contents "w.bin"
        = (saveWeights .little emptyFS "w.bin" fc1_bias_data
            fc1_bias_data.length).2.contents "w.bin" ∧
      (saveWeights .little emptyFS "w.bin" fc1_bias_data fc1_bias_data.length).2.contents
          "w.bin"
        = some (intRep .little fc1_bias_data.length ++ arrayRep .little fc1_bias_data) :=
  overwrite .little emptyFS "w.bin" fc1_weight_data fc1_bias_data rfl

/-- C6. Open failure is fatal: when the output stream does not open,
`saveWeights` ends in the failed assertion and the file system is unchanged;
when the input stream does not open, `loadWeights` ends in the failed
assertion; when the stream opens, neither ends in a failed assertion. -/
theorem open_failure (ord : ByteOrder) (fs : FileSystem) (f : String) (data : List Float32)
    (size : Int) :
    ((ofstream_open fs f).isSome = false →
        saveWeights ord fs f data size = (.assertFailed, fs)) ∧
      ((ifstream_open fs f).isSome = false → loadWeights ord fs f = .assertFailed) ∧
      ((ofstream_open fs f).isSome = true →
        (saveWeights ord fs f data size).1 ≠ .assertFailed) ∧
      ((ifstream_open fs f).isSome = true → loadWeights ord fs f ≠ .assertFailed) := by
  refine ⟨?_, ?_, ?_, ?_⟩
  · intro h
    cases ho : ofstream_open fs f with
    | none => simp only [saveWeights, ho]
    | some fs0 => simp [ho] at h
  · intro h
    cases ho : ifstream_open fs f with
    | none => simp only [loadWeights, ho]
    | some strm => simp [ho] at h
  · intro h
    cases ho : ofstream_open fs f with
    | none => simp [ho] at h
    | some fs0 =>
      simp only [saveWeights, ho]
      split <;> simp
  · intro h
    cases ho : ifstream_open fs f with
    | none => simp [ho] at h
    | some strm =>
      simp only [loadWeights, ho]
      repeat' split
      all_goals simp

/-- Instance of C6: nothing opens on `lockedFS`; on `exactFS` both streams open
on `o.bin`. -/
theorem open_failure_witness :
    saveWeights .little lockedFS "model/fc1.wts" fc1_weight_data 6 = (.assertFailed, lockedFS) ∧
      loadWeights .little lockedFS "model/fc1.wts" = .assertFailed ∧
      (saveWeights .little exactFS "o.bin" fc1_weight_data 6).1 ≠ .assertFailed ∧
      loadWeights .little exactFS "o.bin" ≠ .assertFailed :=
  ⟨(open_failure .little lockedFS "model/fc1.wts" fc1_weight_data 6).1 rfl,
   (open_failure .little lockedFS "model/fc1.wts" fc1_weight_data 6).2.1 rfl,
   (open_failure .little exactFS "o.bin" fc1_weight_data 6).2.2.1 rfl,
   (open_failure .little exactFS "o.bin" fc1_weight_data 6).2.2.2 rfl⟩

/-- C7. Result length: when the stream opens on a file of at least 4 bytes
whose first 4 bytes declare the non-negative count `n`, `loadWeights` returns
a sequence of length exactly `n`, whatever the number of bytes after the
count. -/
theorem result_length (ord : ByteOrder) (fs : FileSystem) (f : String) (bs : List Byte)
    (n : Nat) (hin : fs.inOk f = true) (hc : fs.contents f = some bs) (h4 : 4 ≤ bs.length)
    (hn : declaredCount ord bs = n) :
    ∃ v, loadWeights ord fs f = .returned v ∧ v.length = n := by
  refine ⟨_, loadWeights_eq ord fs f bs hin hc h4 (by omega), ?_⟩
  rw [arrayVal_length, hn, Int.toNat_ofNat]

/-- Instance of C7 on the truncated file, which declares 2 elements. -/
theorem result_length_witness :
    ∃ v, loadWeights .little truncatedFS "t.bin" = .returned v ∧ v.length = 2 :=
  result_length .little truncatedFS "t.bin" [2, 0, 0, 0, 0, 0, 0x80, 0x3F] 2
    rfl rfl (by decide) (by decide)

/-- C8, evaluated on the code. The argument that `main` passes to
`setMaxWorkspaceSize` is `1 << 20 = 1048576` bytes (1 MB); it is not the
`256 * 2^20 = 268435456` bytes (256 MB) that the comment on the same line
documents. -/
theorem maxWorkspaceSize_value :
    main_maxWorkspaceSize = 1048576 ∧
      main_maxWorkspaceSize_documented = 268435456 ∧
      main_maxWorkspaceSize ≠ main_maxWorkspaceSize_documented := by
  decide

/-- C9. Trailing bytes are ignored: let `bs` declare the non-negative count `n`
and hold at least `4 + 4 * n` bytes.  For every byte string `s`, `loadWeights`
on a file holding `bs ++ s` returns, without error, the same sequence as
`loadWeights` on a file holding only the first `4 + 4 * n` bytes of `bs`. -/
theorem trailing_bytes_ignored (ord : ByteOrder) (fs1 fs2 : FileSystem) (f1 f2 : String)
    (bs s : List Byte) (n : Nat) (hin1 : fs1.inOk f1 = true) (hin2 : fs2.inOk f2 = true)
    (hc1 : fs1.contents f1 = some (bs ++ s))
    (hc2 : fs2.contents f2 = some (bs.take (4 + 4 * n)))
    (hn : declaredCount ord bs = n) (hlen : 4 + 4 * n ≤ bs.length) :
    loadWeights ord fs1 f1 = loadWeights ord fs2 f2 ∧
      ∃ v, loadWeights ord fs1 f1 = .returned v := by
  have hd1 : declaredCount ord (bs ++ s) = n := by
    rw [← hn]
    unfold declaredCount
    rw [List.take_append_of_le_length (by omega)]
  have hd2 : declaredCount ord (bs.take (4 + 4 * n)) = n := by
    rw [← hn]
    unfold declaredCount
    rw [List.take_take, Nat.min_eq_left (by omega)]
  have h1 := loadWeights_eq ord fs1 f1 (bs ++ s) hin1 hc1
    (by rw [List.length_append]; omega) (by omega)
  have h2 := loadWeights_eq ord fs2 f2 (bs.take (4 + 4 * n)) hin2 hc2
    (by rw [List.length_take]; omega) (by omega)
  rw [hd1, Int.toNat_ofNat] at h1
  rw [hd2, Int.toNat_ofNat] at h2
  have e1 : ((bs ++ s).drop 4).take (n * 4) = (bs.drop 4).take (n * 4) := by
    rw [List.drop_append_of_le_length (by omega),
      List.take_append_of_le_length (by rw [List.length_drop]; omega)]
  have e2 : ((bs.take (4 + 4 * n)).drop 4).take (n * 4) = (bs.drop 4).take (n * 4) := by
    rw [List.drop_take, List.take_take]
    congr 1
    omega
  have z1 : n * 4 - ((bs ++ s).drop 4).length = 0 := by
    rw [List.length_drop, List.length_append]; omega
  have z2 : n * 4 - ((bs.take (4 + 4 * n)).drop 4).length = 0 := by
    rw [List.length_drop, List.length_take]; omega
  rw [e1, z1] at h1
  rw [e2, z2] at h2
  exact ⟨h1.trans h2.symm, _, h1⟩

/-- Instance of C9: three trailing bytes after one declared float. -/
theorem trailing_bytes_ignored_witness :
    loadWeights .little overlongFS "o.bin" = loadWeights .little exactFS "o.bin" ∧
      ∃ v, loadWeights .little overlongFS "o.bin" = .returned v :=
  trailing_bytes_ignored .little overlongFS exactFS "o.bin" "o.bin"
    [1, 0, 0, 0, 0, 0, 0x80, 0x3F] [7, 8, 9] 1 rfl rfl rfl rfl (by decide) (by decide)

/-- C10. Zero fill on under-read: when the stream opens on a file of `4 + k`
bytes declaring the count `n` with `k < 4 * n`, `loadWeights` returns, without
error, the `n` floats held by the `k` payload bytes followed by `4 * n - k`
zero bytes; every element that starts at or after the end of the payload is
the all-zero pattern. -/
theorem zero_fill (ord : ByteOrder) (fs : FileSystem) (f : String) (bs : List Byte)
    (n k : Nat) (hin : fs.inOk f = true) (hc : fs.contents f = some bs)
    (hn : declaredCount ord bs = n) (hk : bs.length = 4 + k) (hlt : k < 4 * n) :
    loadWeights ord fs f
        = .returned (arrayVal ord n (bs.drop 4 ++ List.replicate (4 * n - k) 0)) ∧
      ∀ i, i < n → k ≤ 4 * i →
        (arrayVal ord n (bs.drop 4 ++ List.replicate (4 * n - k) 0))[i]? = some 0 := by
  have hk4 : (bs.drop 4).length = k := by rw [List.length_drop]; omega
  constructor
  · have h := loadWeights_eq ord fs f bs hin hc (by omega) (by omega)
    rw [hn, Int.toNat_ofNat, List.take_of_length_le (by omega), hk4] at h
    rw [h, Nat.mul_comm]
  · intro i hi hki
    have hi4 : 4 * i = (bs.drop 4).length + (4 * i - k) := by omega
    rw [arrayVal_getElem? ord n _ i hi, hi4, List.drop_append, List.drop_replicate,
      floatVal_replicate_zero]

/-- Instance of C10 on the truncated file: 2 declared, 4 payload bytes. -/
theorem zero_fill_witness :
    loadWeights .little truncatedFS "t.bin"
        = .returned (arrayVal .little 2
            (([2, 0, 0, 0, 0, 0, 0x80, 0x3F] : List Byte).drop 4
              ++ List.replicate (4 * 2 - 4) 0)) ∧
      ∀ i, i < 2 → 4 ≤ 4 * i →
        (arrayVal .little 2
          (([2, 0, 0, 0, 0, 0, 0x80, 0x3F] : List Byte).drop 4
            ++ List.replicate (4 * 2 - 4) 0))[i]? = some 0 :=
  zero_fill .little truncatedFS "t.bin" [2, 0, 0, 0, 0, 0, 0x80, 0x3F] 2 4
    rfl rfl (by decide) (by decide) (by decide)

end WeightStore
